import Mathlib

set_option maxHeartbeats 1000000

namespace ImageGallery

/-!
# Verification of the Image-Gallery core against its specification

Shallow embedding of the repository's core algorithms:

* `buildTree` — the hierarchical path-tree builder (App.tsx),
* `getExifData` / `readTags` — the binary EXIF metadata extractor (MainPanel.tsx),
* `loadImagesForFolder` — the on-demand folder image cache (App.tsx),

together with theorems settling the specification's claims about them.

Strings are modelled by Lean `String` (a JS string is a sequence of
characters); byte buffers by `List Nat`; JS exceptions (`DataView` range
errors, thrown `Error`s) by `Except Unit`; JS objects used as string-keyed
dictionaries by insertion-ordered association lists.
-/

/-! ## Character-level splitting and joining

`splitOnCharList` is JS `String.prototype.split` with a one-character
separator, at the level of character lists: `"".split(sep) = [""]`,
`"a//b".split("/") = ["a","","b"]`, `"/".split("/") = ["",""]`.
-/

def splitOnCharList (sep : Char) : List Char → List (List Char)
  | [] => [[]]
  | c :: cs =>
    if c = sep then [] :: splitOnCharList sep cs
    else
      match splitOnCharList sep cs with
      | [] => [[c]]
      | l :: ls => (c :: l) :: ls

/-- JS `s.split(sep)` for a single-character separator. -/
def splitChar (sep : Char) (s : String) : List String :=
  (splitOnCharList sep s.data).map String.mk

/-- JS `path.split('/')` as used by `buildTree`. -/
def splitSlash (s : String) : List String := splitChar '/' s

/-- The path-joining step of `buildTree`:
`currentPath = currentPath ? currentPath + '/' + part : part`. -/
def joinPath (cur seg : String) : String :=
  if cur = "" then seg else cur ++ "/" ++ seg

/-- Join a list of segments starting from a base path, by repeated `joinPath`
(the value of `currentPath` after walking the segments). -/
def joinFrom (cur : String) (segs : List String) : String :=
  segs.foldl joinPath cur

/-- The full path of a node at position `segs` below the root. -/
def joinSegs (segs : List String) : String := joinFrom "" segs

/-- Inverse of `splitOnCharList`: interleave the separator between pieces. -/
def joinWithChar (sep : Char) : List (List Char) → List Char
  | [] => []
  | [l] => l
  | l :: ls => l ++ sep :: joinWithChar sep ls

/-! ## The path tree (`TreeNode` of types.ts) and `buildTree` (App.tsx)

A JS object used as a dictionary is modelled by an insertion-ordered
association list: assignment to an existing key replaces the value in place,
assignment to a fresh key appends it at the end.
-/

inductive TreeNode where
  | mk (name : String) (path : String) (isSelectable : Bool)
       (children : List (String × TreeNode))

def TreeNode.name : TreeNode → String
  | ⟨n, _, _, _⟩ => n

def TreeNode.path : TreeNode → String
  | ⟨_, p, _, _⟩ => p

def TreeNode.isSelectable : TreeNode → Bool
  | ⟨_, _, s, _⟩ => s

def TreeNode.children : TreeNode → List (String × TreeNode)
  | ⟨_, _, _, c⟩ => c

/-- Object property read `obj[key]` (first matching key, else `undefined`). -/
def lookupAssoc {α : Type} : List (String × α) → String → Option α
  | [], _ => none
  | (k, v) :: rest, s => if k = s then some v else lookupAssoc rest s

/-- Object property write `obj[key] = v`: replace in place or append. -/
def updateAssoc {α : Type} : List (String × α) → String → α → List (String × α)
  | [], k, v => [(k, v)]
  | (k', v') :: rest, k, v =>
    if k' = k then (k, v) :: rest else (k', v') :: updateAssoc rest k v

/-- Assignment `currentNode.isSelectable = true`. -/
def TreeNode.withSelTrue : TreeNode → TreeNode
  | ⟨n, p, _, c⟩ => ⟨n, p, true, c⟩

/-- The inner `parts.forEach` loop of `buildTree`: walk/extend the tree one
segment at a time, creating missing nodes, marking a node selectable when the
progressively-joined prefix is a member of the path set. -/
def insertParts (pathSet : List String) :
    List String → String → TreeNode → TreeNode
  | [], _, t => t
  | seg :: rest, currentPath, TreeNode.mk name path sel children =>
    let newPath := joinPath currentPath seg
    let child0 :=
      match lookupAssoc children seg with
      | some c => c
      | none => TreeNode.mk seg newPath false []
    let child1 := if pathSet.contains newPath then child0.withSelTrue else child0
    let child2 := insertParts pathSet rest newPath child1
    TreeNode.mk name path sel (updateAssoc children seg child2)

/-- One iteration of the outer `paths.forEach` of `buildTree`:
an empty path string is skipped (`if (!path) return`). -/
def buildTreeStep (paths : List String) (t : TreeNode) (path : String) : TreeNode :=
  if path = "" then t else insertParts paths (splitSlash path) "" t

/-- The function `buildTree` from App.tsx: root is `{name: 'root', path: '', isSelectable:
false, children: {}}`; each path's segments are inserted in turn, with
selectability decided by membership in the set of all input paths. -/
def buildTree (paths : List String) : TreeNode :=
  paths.foldl (buildTreeStep paths) (TreeNode.mk "root" "" false [])

/-- Descend from a node through a sequence of child keys. -/
def subtreeAt : TreeNode → List String → Option TreeNode
  | t, [] => some t
  | TreeNode.mk _ _ _ children, s :: rest =>
    match lookupAssoc children s with
    | some c => subtreeAt c rest
    | none => none

/-- The observable attributes (name, full path, selectable flag) of the node
at a given position, if it exists. -/
def nodeInfoAt (t : TreeNode) (segs : List String) : Option (String × String × Bool) :=
  (subtreeAt t segs).map fun n => (n.name, n.path, n.isSelectable)

/-- The last segment of a position (the node's `name` for created nodes). -/
def lastSegD (segs : List String) : String := segs.getLastD ""

/-- Observable attributes predicted for every position of the tree built from
the paths processed so far (`Q`), with selectability decided against the full
path set `P`: the root carries `("root", "", false)`; a non-root position
exists exactly when it is a non-empty prefix of the segment list of some
non-empty processed path, and then its name is its last segment, its path the
join of its segments, and it is selectable exactly when that joined path is a
member of `P`. -/
def specOver (P Q : List String) (segs : List String) : Option (String × String × Bool) :=
  if segs = [] then some ("root", "", false)
  else if ∃ q ∈ Q, q ≠ "" ∧ segs <+: splitSlash q then
    some (lastSegD segs, joinSegs segs, P.contains (joinSegs segs))
  else none

/-- The predicted observable attributes of `buildTree P` at every position. -/
def buildTreeSpec (P : List String) : List String → Option (String × String × Bool) :=
  specOver P P

/-! ## Byte-stream reader (`DataView` over the image bytes)

A byte buffer is a list of byte values. `DataView.getUint8/16/32` are
bounds-checked: a read past the end of the buffer throws a `RangeError`,
modelled by `Except.error ()`.
-/

abbrev ByteBuf := List Nat

/-- JS `DataView.getUint8(i)`. -/
def getU8 (file : ByteBuf) (i : Nat) : Except Unit Nat :=
  match file[i]? with
  | some b => .ok b
  | none => .error ()

/-- JS `DataView.getUint16(i, little)`; the flag defaults to big-endian. -/
def getU16 (file : ByteBuf) (i : Nat) (little : Bool) : Except Unit Nat := do
  let b0 ← getU8 file i
  let b1 ← getU8 file (i + 1)
  pure (if little then b1 * 256 + b0 else b0 * 256 + b1)

/-- JS `DataView.getUint32(i, little)`. -/
def getU32 (file : ByteBuf) (i : Nat) (little : Bool) : Except Unit Nat := do
  let b0 ← getU8 file i
  let b1 ← getU8 file (i + 1)
  let b2 ← getU8 file (i + 2)
  let b3 ← getU8 file (i + 3)
  pure (if little then ((b3 * 256 + b2) * 256 + b1) * 256 + b0
        else ((b0 * 256 + b1) * 256 + b2) * 256 + b3)

/-- The function `readRational` from MainPanel.tsx: a 32-bit numerator over a 32-bit
denominator; a zero denominator yields 0 rather than failing. JS floating
point division is idealized as exact rational division. -/
def readRational (file : ByteBuf) (offset : Nat) (bigEnd : Bool) : Except Unit ℚ := do
  let numerator ← getU32 file offset (!bigEnd)
  let denominator ← getU32 file (offset + 4) (!bigEnd)
  if denominator = 0 then pure 0
  else pure ((numerator : ℚ) / (denominator : ℚ))

/-! ## Decoded field values and the field map -/

/-- A decoded metadata value: a number, a character string, or an array of
numbers (multi-component rationals). -/
inductive ExifVal where
  | num (q : ℚ)
  | str (s : String)
  | arr (l : List ℚ)
deriving DecidableEq

/-- The `tags` object: a JS object used as a string-keyed dictionary. -/
abbrev FieldMap := List (String × ExifVal)

/-- JS `delete obj[key]`: the property is removed entirely. (A JS object
cannot hold two properties with the same key, so removing every matching pair
of the association list coincides with the object semantics on every list
that represents an object.) -/
def eraseAssoc {α : Type} : List (String × α) → String → List (String × α)
  | [], _ => []
  | (k, v) :: rest, s => if k = s then eraseAssoc rest s else (k, v) :: eraseAssoc rest s

/-- JS truthiness of a decoded value: `0` and `""` are falsy, every array is
truthy (including the empty array). -/
def ExifVal.truthy : ExifVal → Bool
  | .num q => q != 0
  | .str s => s != ""
  | .arr _ => true

/-- Truthiness of `tags[key]`: an absent property (`undefined`) is falsy. -/
def truthyAt (m : FieldMap) (k : String) : Bool :=
  match lookupAssoc m k with
  | some v => v.truthy
  | none => false

/-- Use of a decoded pointer field as a byte offset
(`tiffHeaderOffset + tags.ExifIFDPointer`). The decoded pointer is a
non-negative number whenever this decoder produced it from a long/short or
raw-pointer entry; a fractional number (a rational pointer) is truncated as
JS `ToIndex` would. For a string or array value JS would coerce through
string concatenation; that corner is approximated by offset 0 (no theorem
below depends on it). -/
def ExifVal.toOffset : ExifVal → Nat
  | .num q => q.floor.toNat
  | .str _ => 0
  | .arr _ => 0

/-- The `EXIF_TAGS` table of MainPanel.tsx. -/
def exifTagName : Nat → Option String
  | 0x0100 => some "ImageWidth"
  | 0x0101 => some "ImageHeight"
  | 0x0102 => some "BitsPerSample"
  | 0x0103 => some "Compression"
  | 0x0106 => some "PhotometricInterpretation"
  | 0x010E => some "ImageDescription"
  | 0x010F => some "Make"
  | 0x0110 => some "Model"
  | 0x0112 => some "Orientation"
  | 0x0115 => some "SamplesPerPixel"
  | 0x011A => some "XResolution"
  | 0x011B => some "YResolution"
  | 0x011C => some "PlanarConfiguration"
  | 0x0128 => some "ResolutionUnit"
  | 0x0132 => some "DateTime"
  | 0x013B => some "Artist"
  | 0x8298 => some "Copyright"
  | 0x8769 => some "ExifIFDPointer"
  | 0x8825 => some "GPSInfoIFDPointer"
  | 0x9000 => some "ExifVersion"
  | 0x9003 => some "DateTimeOriginal"
  | 0x9004 => some "DateTimeDigitized"
  | 0x9201 => some "ShutterSpeedValue"
  | 0x9202 => some "ApertureValue"
  | 0x9204 => some "ExposureTime"
  | 0x9205 => some "FNumber"
  | 0x9209 => some "Flash"
  | 0x920A => some "FocalLength"
  | 0x927C => some "MakerNote"
  | 0x9286 => some "UserComment"
  | 0x8827 => some "ISOSpeedRatings"
  | 0xA001 => some "ColorSpace"
  | 0xA002 => some "PixelXDimension"
  | 0xA003 => some "PixelYDimension"
  | 0xA402 => some "ExposureMode"
  | 0xA403 => some "WhiteBalance"
  | 0xA406 => some "SceneCaptureType"
  | _ => none

/-- The `GPS_TAGS` table of MainPanel.tsx. -/
def gpsTagName : Nat → Option String
  | 0x0001 => some "GPSLatitudeRef"
  | 0x0002 => some "GPSLatitude"
  | 0x0003 => some "GPSLongitudeRef"
  | 0x0004 => some "GPSLongitude"
  | _ => none

/-- The size table `[0,1,1,2,4,8,1,1,2,4,8,4,8][format]`: the per-component byte size.
Indexing past the literal array yields `undefined`, which fails the
`if (!typeSize)` test exactly like 0, so both are mapped to 0. -/
def typeSizeTable : Nat → Nat
  | 0 => 0
  | 1 => 1
  | 2 => 1
  | 3 => 2
  | 4 => 4
  | 5 => 8
  | 6 => 1
  | 7 => 1
  | 8 => 2
  | 9 => 4
  | 10 => 8
  | 11 => 4
  | 12 => 8
  | _ => 0

/-- The ECMAScript whitespace characters recognized by `String.prototype.trim`
(the ones representable here; all theorems below only rely on the blank,
tab, newline and carriage-return members). -/
def isJsWhitespace (c : Char) : Bool :=
  c == ' ' || c == '\t' || c == '\n' || c == '\r' || c == '\x0b' ||
  c == '\x0c' || c == ' ' || c == '﻿'

/-- JS `s.trim()`: removes whitespace from both ends of the string. -/
def trimJs (s : String) : String :=
  String.mk (((s.data.dropWhile isJsWhitespace).reverse.dropWhile isJsWhitespace).reverse)

/-- The ASCII read loop of `readTags`: `count` bytes starting at `addr`,
each converted with `String.fromCharCode`. -/
def readChars (file : ByteBuf) (addr count : Nat) : Except Unit (List Char) :=
  (List.range count).mapM fun n => do
    let b ← getU8 file (addr + n)
    pure (Char.ofNat b)

/-- The multi-component rational read loop of `readTags`. -/
def readRationals (file : ByteBuf) (addr count : Nat) (bigEnd : Bool) : Except Unit (List ℚ) :=
  (List.range count).mapM fun j => readRational file (addr + j * 8) bigEnd

/-! ## The tag directory decoder (`readTags`) -/

/-- The body of the entry loop of `readTags` for entry index `i`. A tag id
absent from the table, or an unknown format code, skips the entry. ASCII
entries read `min(components − 1, 100)` bytes and trim; rationals decode one
or many 8-byte rationals; single-component shorts/longs read inline from the
4-byte field; a single-component entry of total size ≤ 4 with any other
format leaves `value` undefined (nothing stored); every other entry stores
the raw 4-byte pointer value verbatim. -/
def processEntry (file : ByteBuf) (tiffStart dirStart : Nat)
    (tags : Nat → Option String) (bigEnd : Bool)
    (result : FieldMap) (i : Nat) : Except Unit FieldMap := do
  let entryOffset := dirStart + i * 12 + 2
  let tagId ← getU16 file entryOffset (!bigEnd)
  match tags tagId with
  | none => pure result
  | some tagName => do
    let format ← getU16 file (entryOffset + 2) (!bigEnd)
    let components ← getU32 file (entryOffset + 4) (!bigEnd)
    let dataOffset := entryOffset + 8
    let typeSize := typeSizeTable format
    if typeSize = 0 then pure result
    else do
      let totalSize := components * typeSize
      let valuePointer ← getU32 file dataOffset (!bigEnd)
      let valueAddress := if totalSize > 4 then tiffStart + valuePointer else dataOffset
      if format = 2 then do
        let cs ← readChars file valueAddress (min (components - 1) 100)
        pure (updateAssoc result tagName (.str (trimJs (String.mk cs))))
      else if format = 5 then
        if components > 1 then do
          let vals ← readRationals file valueAddress components bigEnd
          pure (updateAssoc result tagName (.arr vals))
        else do
          let q ← readRational file valueAddress bigEnd
          pure (updateAssoc result tagName (.num q))
      else if components = 1 ∧ totalSize ≤ 4 then
        if format = 3 then do
          let v ← getU16 file dataOffset (!bigEnd)
          pure (updateAssoc result tagName (.num (v : ℚ)))
        else if format = 4 then do
          let v ← getU32 file dataOffset (!bigEnd)
          pure (updateAssoc result tagName (.num (v : ℚ)))
        else pure result
      else
        pure (updateAssoc result tagName (.num (valuePointer : ℚ)))

/-- The function `readTags` from MainPanel.tsx: read the 16-bit entry count at the
directory offset and process each 12-byte entry in turn; a thrown range
error anywhere aborts the whole directory decode. -/
def readTags (file : ByteBuf) (tiffStart dirStart : Nat)
    (tags : Nat → Option String) (bigEnd : Bool) : Except Unit FieldMap := do
  let entries ← getU16 file dirStart (!bigEnd)
  (List.range entries).foldlM (processEntry file tiffStart dirStart tags bigEnd) []

/-! ## GPS normalization and output post-processing -/

/-- JS `Math.round`: round half toward positive infinity. -/
def jsRound (q : ℚ) : ℤ := ⌊q + 1 / 2⌋

/-- JS `Math.round(x * 10000) / 10000`. -/
def roundTo4 (q : ℚ) : ℚ := (jsRound (q * 10000) : ℚ) / 10000

/-- Lines 112–137 of MainPanel.tsx: when all four GPS fields are truthy,
convert the two 3-element [D,M,S] arrays to signed decimal degrees (sign from
the trimmed hemisphere reference); any other shape (wrong array length,
non-array coordinate, non-string reference on which `.trim()` would throw)
lands in the `catch`, which deletes both coordinates; the `finally` always
deletes both hemisphere references. When the four-way truthiness test fails
the map is returned unchanged. The source's element-wise
`typeof v !== 'number'` check is vacuous here because a decoded array holds
only numbers. -/
def normalizeGps (tags : FieldMap) : FieldMap :=
  if truthyAt tags "GPSLatitude" && truthyAt tags "GPSLongitude" &&
     truthyAt tags "GPSLatitudeRef" && truthyAt tags "GPSLongitudeRef" then
    let afterTry :=
      match lookupAssoc tags "GPSLatitude", lookupAssoc tags "GPSLongitude",
            lookupAssoc tags "GPSLatitudeRef", lookupAssoc tags "GPSLongitudeRef" with
      | some (.arr [a, b, c]), some (.arr [d, e, f]), some (.str rs), some (.str es) =>
        let latitude := a + b / 60 + c / 3600
        let longitude := d + e / 60 + f / 3600
        updateAssoc
          (updateAssoc tags "GPSLatitude"
            (.num ((if trimJs rs = "N" then 1 else -1) * latitude)))
          "GPSLongitude"
          (.num ((if trimJs es = "E" then 1 else -1) * longitude))
      | _, _, _, _ =>
        eraseAssoc (eraseAssoc tags "GPSLatitude") "GPSLongitude"
    eraseAssoc (eraseAssoc afterTry "GPSLatitudeRef") "GPSLongitudeRef"
  else tags

/-- The rounding loop: every numeric field is rounded to 4 decimal places;
strings and arrays are left untouched. -/
def roundVals (tags : FieldMap) : FieldMap :=
  tags.map fun kv =>
    match kv.2 with
    | .num q => (kv.1, ExifVal.num (roundTo4 q))
    | v => (kv.1, v)

/-- Lines 111–149 of MainPanel.tsx after the directory merges: GPS
normalization, removal of the two directory-pointer fields, rounding, and
the final `Object.keys(tags).length > 0 ? tags : null`. -/
def finishTags (tags : FieldMap) : Option FieldMap :=
  let t1 := eraseAssoc (eraseAssoc (normalizeGps tags) "ExifIFDPointer") "GPSInfoIFDPointer"
  let t2 := roundVals t1
  if t2.isEmpty then none else some t2

/-- The `for (const tag in extra) base[tag] = extra[tag]` merge loops. -/
def mergeTags (base extra : FieldMap) : FieldMap :=
  extra.foldl (fun m kv => updateAssoc m kv.1 kv.2) base

/-- A well-formed GPS field map for the C3 witness. -/
def gpsSampleMap : FieldMap :=
  [("GPSLatitude", ExifVal.arr [40, 0, 0]), ("GPSLongitude", ExifVal.arr [74, 0, 0]),
   ("GPSLatitudeRef", ExifVal.str "N"), ("GPSLongitudeRef", ExifVal.str "W")]

/-! ## The metadata extractor (`getExifData`) -/

/-- One iteration of the marker-scanning loop of `getExifData` at `offset`
(under `offset < byteLength`): `.inl r` means the function returns `r`
(a field map or `null`); `.inr len` means the loop continues, the next offset
being `offset + 2 + len` where `len` is the 16-bit big-endian segment length
read at `offset + 2`. -/
def scanStep (dv : ByteBuf) (offset : Nat) : Except Unit (Option FieldMap ⊕ Nat) := do
  if offset + 4 > dv.length then pure (.inl none)
  else do
    let b0 ← getU8 dv offset
    if b0 ≠ 0xFF then pure (.inl none)
    else do
      let marker ← getU8 dv (offset + 1)
      if marker = 0xE1 then do
        let tiffHeaderOffset := offset + 10
        let sig ← getU32 dv (offset + 4) false
        if sig ≠ 0x45786966 then pure (.inl none)
        else do
          let bom ← getU16 dv tiffHeaderOffset false
          let bigEnd := bom = 0x4D4D
          let ifdOffset ← getU32 dv (tiffHeaderOffset + 4) (!bigEnd)
          let tags ← readTags dv tiffHeaderOffset (tiffHeaderOffset + ifdOffset) exifTagName bigEnd
          let tags ←
            if truthyAt tags "ExifIFDPointer" then do
              let p := (lookupAssoc tags "ExifIFDPointer").getD (.num 0)
              let exifTags ← readTags dv tiffHeaderOffset (tiffHeaderOffset + p.toOffset)
                exifTagName bigEnd
              pure (mergeTags tags exifTags)
            else pure tags
          let tags ←
            if truthyAt tags "GPSInfoIFDPointer" then do
              let p := (lookupAssoc tags "GPSInfoIFDPointer").getD (.num 0)
              let gpsTags ← readTags dv tiffHeaderOffset (tiffHeaderOffset + p.toOffset)
                gpsTagName bigEnd
              pure (mergeTags tags gpsTags)
            else pure tags
          pure (.inl (finishTags tags))
      else do
        let len ← getU16 dv (offset + 2) false
        pure (.inr len)

/-- The `while (offset < dataView.byteLength)` loop, with an explicit
iteration budget (`fuel`) so that the definition computes by evaluation, and
an iteration counter in the result. Every continuing iteration advances the
offset by `2 + len ≥ 2`, so `byteLength + 1` units of fuel are always
sufficient (`scanLoop_fuel_irrelevant` below); exhausted fuel returns the
same value as falling out of the loop. -/
def scanLoop (dv : ByteBuf) : Nat → Nat → Nat × Except Unit (Option FieldMap)
  | 0, _ => (0, .ok none)
  | fuel + 1, offset =>
    if offset < dv.length then
      match scanStep dv offset with
      | .error e => (1, .error e)
      | .ok (.inl r) => (1, .ok r)
      | .ok (.inr len) =>
        let next := scanLoop dv fuel (offset + 2 + len)
        (next.1 + 1, next.2)
    else (0, .ok none)

/-- The scan loop entered at `offset`, with its always-sufficient fuel. -/
def scanSegments (dv : ByteBuf) (offset : Nat) : Nat × Except Unit (Option FieldMap) :=
  scanLoop dv (dv.length + 1) offset

/-- The function `getExifData` from MainPanel.tsx. `Except.error` models a thrown
`RangeError` from an out-of-range `DataView` read propagating to the caller;
`.ok none` is the `null` ("no metadata") result. The short-circuit in
`if (getUint8(0) !== 0xFF || getUint8(1) !== 0xD8)` is preserved: byte 1 is
only read when byte 0 equals 0xFF. -/
def getExifDataE (buf : ByteBuf) : Except Unit (Option FieldMap) := do
  let b0 ← getU8 buf 0
  if b0 ≠ 0xFF then pure none
  else do
    let b1 ← getU8 buf 1
    if b1 ≠ 0xD8 then pure none
    else (scanSegments buf 2).2

instance {ε α : Type} [DecidableEq ε] [DecidableEq α] : DecidableEq (Except ε α)
  | .error e, .error f =>
    if h : e = f then isTrue (by rw [h]) else isFalse (by simp [h])
  | .error _, .ok _ => isFalse (by simp)
  | .ok _, .error _ => isFalse (by simp)
  | .ok a, .ok b =>
    if h : a = b then isTrue (by rw [h]) else isFalse (by simp [h])

/-! ## The on-demand folder image cache (`loadImagesForFolder`, App.tsx) -/

/-- An image record as built by `loadImagesForFolder`. -/
structure Image where
  id : String
  name : String
  fullPath : String
  format : String
deriving DecidableEq

/-- JS `fullPath.split('/').pop() || fullPath`. -/
def imageNameOf (fullPath : String) : String :=
  let n := (splitSlash fullPath).getLastD ""
  if n = "" then fullPath else n

/-- JS `fullPath.split('.').pop()?.toLowerCase() || 'unknown'`. -/
def imageFormatOf (fullPath : String) : String :=
  let e := ((splitChar '.' fullPath).getLastD "").toLower
  if e = "" then "unknown" else e

/-- The `imagePaths.map(...)` record constructor of `loadImagesForFolder`. -/
def mkImage (fullPath : String) : Image :=
  { id := fullPath, name := imageNameOf fullPath, fullPath := fullPath,
    format := imageFormatOf fullPath }

/-- The cache `imagesByFolder`: folder path to loaded image list. An absent
key means "not yet loaded"; a present empty list means "loaded, confirmed
empty (or failed)". -/
abbrev ImageCache := List (String × List Image)

/-- The function `loadImagesForFolder` (one sequential call): the new cache together with
the number of fetches issued (0 or 1). `fetchImages` is the external
`api.getImages` collaborator: `some paths` on success, `none` on
failure/rejection. The guard `if (imagesByFolder[folderPath]) return` makes
any present entry — including the truthy empty array — a no-op; on success
the mapped records are stored; on failure an empty list is stored to stop
re-fetching. -/
def loadImagesForFolder (fetchImages : String → Option (List String))
    (cache : ImageCache) (folderPath : String) : ImageCache × Nat :=
  match lookupAssoc cache folderPath with
  | some _ => (cache, 0)
  | none =>
    match fetchImages folderPath with
    | some imagePaths => (updateAssoc cache folderPath (imagePaths.map mkImage), 1)
    | none => (updateAssoc cache folderPath [], 1)

/-- The cache effect of `handleRefreshFolders`: `setImagesByFolder({})`. -/
def invalidateAll (_cache : ImageCache) : ImageCache := []

example : nodeInfoAt (buildTree ["a", "a/b"]) ["a"] = some ("a", "a", true) := by decide
example : nodeInfoAt (buildTree ["a/b"]) ["a"] = some ("a", "a", false) := by decide
example : nodeInfoAt (buildTree ["a/b"]) ["a", "b"] = some ("b", "a/b", true) := by decide
example : nodeInfoAt (buildTree ["a/b"]) ["b"] = none := by decide

/-! ## Basic lemmas about the tree operations -/

theorem lookupAssoc_updateAssoc {α : Type} (ch : List (String × α)) (k s : String) (v : α) :
    lookupAssoc (updateAssoc ch k v) s = if k = s then some v else lookupAssoc ch s := by
  induction ch with
  | nil =>
    simp only [updateAssoc, lookupAssoc]
  | cons hd tl ih =>
    obtain ⟨k', v'⟩ := hd
    simp only [updateAssoc]
    by_cases hk : k' = k
    · subst hk
      simp only [if_pos rfl, lookupAssoc]
      by_cases hs : k' = s <;> simp [hs]
    · simp only [if_neg hk, lookupAssoc]
      by_cases hs : k' = s
      · subst hs
        have hks : ¬ (k = k') := fun h => hk h.symm
        simp [hks]
      · simp [hs, ih]

@[simp] theorem subtreeAt_nil (t : TreeNode) : subtreeAt t [] = some t := by
  cases t; rfl

theorem subtreeAt_cons (n p : String) (sel : Bool) (ch : List (String × TreeNode))
    (s : String) (rest : List String) :
    subtreeAt (TreeNode.mk n p sel ch) (s :: rest) =
      match lookupAssoc ch s with
      | some c => subtreeAt c rest
      | none => none := rfl

@[simp] theorem nodeInfoAt_nil (t : TreeNode) :
    nodeInfoAt t [] = some (t.name, t.path, t.isSelectable) := by
  cases t; rfl

theorem nodeInfoAt_cons (n p : String) (sel : Bool) (ch : List (String × TreeNode))
    (s : String) (rest : List String) :
    nodeInfoAt (TreeNode.mk n p sel ch) (s :: rest) =
      match lookupAssoc ch s with
      | some c => nodeInfoAt c rest
      | none => none := by
  cases h : lookupAssoc ch s <;> simp [nodeInfoAt, subtreeAt_cons, h]

theorem nodeInfoAt_withSelTrue_cons (t : TreeNode) (s : String) (rest : List String) :
    nodeInfoAt t.withSelTrue (s :: rest) = nodeInfoAt t (s :: rest) := by
  cases t; rfl

@[simp] theorem insertParts_nil (S : List String) (c : String) (t : TreeNode) :
    insertParts S [] c t = t := by
  cases t; rfl

@[simp] theorem joinFrom_nil (c : String) : joinFrom c [] = c := rfl

@[simp] theorem joinFrom_cons (c s : String) (rest : List String) :
    joinFrom c (s :: rest) = joinFrom (joinPath c s) rest := rfl

theorem getLastD_ne_nil {l : List String} (h : l ≠ []) (d1 d2 : String) :
    l.getLastD d1 = l.getLastD d2 := by
  cases l with
  | nil => exact absurd rfl h
  | cons a l => rw [List.getLastD_cons, List.getLastD_cons]

theorem lastSegD_cons_ne_nil (seg : String) {rest : List String} (h : rest ≠ []) :
    lastSegD (seg :: rest) = lastSegD rest := by
  unfold lastSegD
  rw [List.getLastD_cons]
  exact getLastD_ne_nil h seg ""

/-- Effect of one path insertion on the observable node attributes at every
position: positions that are non-empty prefixes of the inserted segment list
get created (name = last segment, path = progressively-joined prefix) or have
their selectable flag or-ed with path-set membership; all other positions are
untouched. -/
theorem insertParts_info (S : List String) :
    ∀ (parts : List String) (cur : String) (t : TreeNode) (segs : List String),
    nodeInfoAt (insertParts S parts cur t) segs =
      if segs ≠ [] ∧ segs <+: parts then
        some (match nodeInfoAt t segs with
              | some i => (i.1, i.2.1, i.2.2 || S.contains (joinFrom cur segs))
              | none => (lastSegD segs, joinFrom cur segs, S.contains (joinFrom cur segs)))
      else nodeInfoAt t segs := by
  intro parts
  induction parts with
  | nil =>
    intro cur t segs
    have hno : ¬ (segs ≠ [] ∧ segs <+: ([] : List String)) := by
      rintro ⟨hne, hp⟩
      exact hne (List.prefix_nil.mp hp)
    rw [if_neg hno, insertParts_nil]
  | cons seg rest ih =>
    intro cur t segs
    obtain ⟨name, path, sel, children⟩ := t
    simp only [insertParts]
    cases segs with
    | nil =>
      have hno : ¬ (([] : List String) ≠ [] ∧ ([] : List String) <+: seg :: rest) := by
        rintro ⟨hne, _⟩; exact hne rfl
      rw [if_neg hno]
      simp [nodeInfoAt_nil, TreeNode.name, TreeNode.path, TreeNode.isSelectable]
    | cons s segsRest =>
      rw [nodeInfoAt_cons, nodeInfoAt_cons, lookupAssoc_updateAssoc]
      by_cases hs : seg = s
      · subst hs
        simp only [eq_self_iff_true, if_true]
        rw [ih]
        cases segsRest with
        | nil =>
          have hyes : (([seg] : List String) ≠ [] ∧ [seg] <+: seg :: rest) := by
            constructor
            · simp
            · simp [List.cons_prefix_cons]
          have hno : ¬ (([] : List String) ≠ [] ∧ ([] : List String) <+: rest) := by
            rintro ⟨hne, _⟩; exact hne rfl
          rw [if_neg hno, if_pos hyes]
          cases hlk : lookupAssoc children seg with
          | some c =>
            obtain ⟨cn, cp, cs, cch⟩ := c
            by_cases hmem : joinPath cur seg ∈ S <;>
              simp [hmem, nodeInfoAt_nil, TreeNode.withSelTrue, TreeNode.name,
                TreeNode.path, TreeNode.isSelectable, joinFrom]
          | none =>
            by_cases hmem : joinPath cur seg ∈ S <;>
              simp [hmem, nodeInfoAt_nil, TreeNode.withSelTrue, TreeNode.name,
                TreeNode.path, TreeNode.isSelectable, joinFrom, lastSegD]
        | cons s2 rest2 =>
          -- the node info of the modified child at a deeper, non-empty position
          -- agrees with the original tree's info at `seg :: s2 :: rest2`
          have hchild :
              nodeInfoAt
                (if S.contains (joinPath cur seg) = true then
                  TreeNode.withSelTrue
                    (match lookupAssoc children seg with
                     | some c => c
                     | none => TreeNode.mk seg (joinPath cur seg) false [])
                 else
                  (match lookupAssoc children seg with
                   | some c => c
                   | none => TreeNode.mk seg (joinPath cur seg) false []))
                (s2 :: rest2) =
              nodeInfoAt (TreeNode.mk name path sel children) (seg :: s2 :: rest2) := by
            rw [nodeInfoAt_cons]
            cases hlk : lookupAssoc children seg with
            | some c =>
              by_cases hmem : joinPath cur seg ∈ S <;>
                simp [hmem, hlk, nodeInfoAt_withSelTrue_cons]
            | none =>
              by_cases hmem : joinPath cur seg ∈ S <;>
                simp [hmem, hlk, nodeInfoAt_cons, lookupAssoc, TreeNode.withSelTrue]
          rw [hchild]
          have hlast : lastSegD (seg :: s2 :: rest2) = lastSegD (s2 :: rest2) :=
            lastSegD_cons_ne_nil seg (by simp)
          have hjoin : joinFrom cur (seg :: s2 :: rest2) = joinFrom (joinPath cur seg) (s2 :: rest2) := rfl
          by_cases hpre : (s2 :: rest2) <+: rest
          · have h1 : ((s2 :: rest2 : List String) ≠ [] ∧ (s2 :: rest2) <+: rest) := ⟨by simp, hpre⟩
            have h2 : ((seg :: s2 :: rest2 : List String) ≠ [] ∧ (seg :: s2 :: rest2) <+: seg :: rest) := by
              refine ⟨by simp, ?_⟩
              simp [List.cons_prefix_cons, hpre]
            rw [if_pos h1, if_pos h2, hlast, hjoin, nodeInfoAt_cons]
          · have h1 : ¬ ((s2 :: rest2 : List String) ≠ [] ∧ (s2 :: rest2) <+: rest) := by
              rintro ⟨_, hp⟩; exact hpre hp
            have h2 : ¬ ((seg :: s2 :: rest2 : List String) ≠ [] ∧ (seg :: s2 :: rest2) <+: seg :: rest) := by
              rintro ⟨_, hp⟩
              rw [List.cons_prefix_cons] at hp
              exact hpre hp.2
            rw [if_neg h1, if_neg h2, nodeInfoAt_cons]
      · simp only [if_neg hs]
        have h2 : ¬ ((s :: segsRest : List String) ≠ [] ∧ (s :: segsRest) <+: seg :: rest) := by
          rintro ⟨_, hp⟩
          rw [List.cons_prefix_cons] at hp
          exact hs hp.1.symm
        rw [if_neg h2]

/-! ## Characterization of the whole tree built by `buildTree` -/

theorem buildTreeStep_info (P Q : List String) (t : TreeNode) (p : String)
    (h : ∀ segs, nodeInfoAt t segs = specOver P Q segs) (segs : List String) :
    nodeInfoAt (buildTreeStep P t p) segs = specOver P (Q ++ [p]) segs := by
  by_cases hp : p = ""
  · subst hp
    unfold buildTreeStep
    rw [if_pos rfl, h]
    unfold specOver
    by_cases h0 : segs = []
    · simp [h0]
    · rw [if_neg h0, if_neg h0]
      have hiff : (∃ q ∈ Q, q ≠ "" ∧ segs <+: splitSlash q) ↔
          (∃ q ∈ Q ++ [""], q ≠ "" ∧ segs <+: splitSlash q) := by
        constructor
        · rintro ⟨q, hq, hx⟩
          exact ⟨q, List.mem_append_left _ hq, hx⟩
        · rintro ⟨q, hq, hne, hpr⟩
          rcases List.mem_append.mp hq with hq' | hq'
          · exact ⟨q, hq', hne, hpr⟩
          · simp at hq'
            exact absurd hq' hne
      exact if_congr hiff rfl rfl
  · unfold buildTreeStep
    rw [if_neg hp, insertParts_info]
    by_cases h0 : segs = []
    · subst h0
      have hno : ¬ (([] : List String) ≠ [] ∧ ([] : List String) <+: splitSlash p) := by
        rintro ⟨hne, _⟩; exact hne rfl
      rw [if_neg hno, h]
      simp [specOver]
    · by_cases hpre : segs <+: splitSlash p
      · rw [if_pos ⟨h0, hpre⟩, h]
        unfold specOver
        rw [if_neg h0, if_neg h0]
        have hnew : (∃ q ∈ Q ++ [p], q ≠ "" ∧ segs <+: splitSlash q) :=
          ⟨p, List.mem_append_right _ (by simp), hp, hpre⟩
        rw [if_pos hnew]
        by_cases hQ : ∃ q ∈ Q, q ≠ "" ∧ segs <+: splitSlash q
        · rw [if_pos hQ]
          simp [joinSegs]
        · rw [if_neg hQ]
          simp [joinSegs]
      · have hno : ¬ (segs ≠ [] ∧ segs <+: splitSlash p) := fun hc => hpre hc.2
        rw [if_neg hno, h]
        unfold specOver
        rw [if_neg h0, if_neg h0]
        have hiff : (∃ q ∈ Q, q ≠ "" ∧ segs <+: splitSlash q) ↔
            (∃ q ∈ Q ++ [p], q ≠ "" ∧ segs <+: splitSlash q) := by
          constructor
          · rintro ⟨q, hq, hx⟩
            exact ⟨q, List.mem_append_left _ hq, hx⟩
          · rintro ⟨q, hq, hne, hpr⟩
            rcases List.mem_append.mp hq with hq' | hq'
            · exact ⟨q, hq', hne, hpr⟩
            · simp at hq'
              subst hq'
              exact absurd hpr hpre
        exact if_congr hiff rfl rfl

theorem buildTree_go_info (P : List String) :
    ∀ (R Q : List String) (t : TreeNode),
    (∀ segs, nodeInfoAt t segs = specOver P Q segs) →
    ∀ segs, nodeInfoAt (R.foldl (buildTreeStep P) t) segs = specOver P (Q ++ R) segs := by
  intro R
  induction R with
  | nil =>
    intro Q t h segs
    simpa using h segs
  | cons p R ih =>
    intro Q t h segs
    rw [List.foldl_cons]
    have hstep : ∀ segs, nodeInfoAt (buildTreeStep P t p) segs = specOver P (Q ++ [p]) segs :=
      buildTreeStep_info P Q t p h
    have := ih (Q ++ [p]) (buildTreeStep P t p) hstep segs
    simpa [List.append_assoc] using this

/-- Full characterization of the tree built by `buildTree`: the observable
attributes at every position are exactly those predicted by `buildTreeSpec`.
In particular the shape of the tree depends only on which strings are members
of the input list. -/
theorem buildTree_info (P : List String) (segs : List String) :
    nodeInfoAt (buildTree P) segs = buildTreeSpec P segs := by
  have hbase : ∀ segs, nodeInfoAt (TreeNode.mk "root" "" false []) segs = specOver P [] segs := by
    intro segs
    cases segs with
    | nil =>
      simp [specOver, nodeInfoAt_nil, TreeNode.name, TreeNode.path, TreeNode.isSelectable]
    | cons s rest =>
      simp [specOver, nodeInfoAt_cons, lookupAssoc]
  have h := buildTree_go_info P P [] _ hbase segs
  simpa [buildTree, buildTreeSpec] using h

theorem contains_eq_decide_mem (l : List String) (s : String) :
    l.contains s = decide (s ∈ l) := by
  simp

/-- C9 counterexample: on the empty path list the root node's name is
`"root"`, not the empty string, refuting the claim that the root has an
empty name. -/
theorem buildTree_root_empty_name_refuted :
    ¬ ((buildTree []).name = "" ∧ (buildTree []).path = "" ∧
       (buildTree []).isSelectable = false) := by
  decide

/-- C9 (amended): for every path list, the root node of `buildTree` has name
`"root"`, an empty path, and is never marked selectable. -/
theorem buildTree_root_attrs (P : List String) :
    (buildTree P).name = "root" ∧ (buildTree P).path = "" ∧
    (buildTree P).isSelectable = false := by
  have h := buildTree_info P []
  rw [nodeInfoAt_nil] at h
  simp [buildTreeSpec, specOver, Prod.mk.injEq] at h
  exact ⟨h.1, h.2.1, h.2.2⟩

/-- C7: `buildTree` is invariant under permutation of the input path list:
the observable attributes (name, full path, selectable flag) agree at every
position of the two trees, hence the trees are structurally identical. -/
theorem buildTree_perm_info (P Pp : List String) (h : P.Perm Pp) (segs : List String) :
    nodeInfoAt (buildTree P) segs = nodeInfoAt (buildTree Pp) segs := by
  rw [buildTree_info, buildTree_info]
  unfold buildTreeSpec specOver
  by_cases h0 : segs = []
  · simp [h0]
  · rw [if_neg h0, if_neg h0]
    have hiff : (∃ q ∈ P, q ≠ "" ∧ segs <+: splitSlash q) ↔
        (∃ q ∈ Pp, q ≠ "" ∧ segs <+: splitSlash q) := by
      constructor
      · rintro ⟨q, hq, hx⟩
        exact ⟨q, h.mem_iff.mp hq, hx⟩
      · rintro ⟨q, hq, hx⟩
        exact ⟨q, h.mem_iff.mpr hq, hx⟩
    have hcont : P.contains (joinSegs segs) = Pp.contains (joinSegs segs) := by
      rw [contains_eq_decide_mem, contains_eq_decide_mem]
      exact decide_eq_decide.mpr h.mem_iff
    rw [hcont]
    exact if_congr hiff rfl rfl

/-- Witness for C7 at a concrete permutation pair. -/
theorem buildTree_perm_info_witness :
    nodeInfoAt (buildTree ["a", "b/c"]) ["b", "c"] =
      nodeInfoAt (buildTree ["b/c", "a"]) ["b", "c"] :=
  buildTree_perm_info ["a", "b/c"] ["b/c", "a"] (List.Perm.swap "b/c" "a" []) ["b", "c"]

/-! ## Split/join inverse lemmas, used for uniqueness of node paths -/

theorem splitOnCharList_ne_nil (sep : Char) (l : List Char) : splitOnCharList sep l ≠ [] := by
  cases l with
  | nil => simp [splitOnCharList]
  | cons c cs =>
    unfold splitOnCharList
    by_cases h : c = sep
    · simp [h]
    · simp only [if_neg h]
      cases splitOnCharList sep cs <;> simp

theorem mem_splitOnCharList_no_sep (sep : Char) :
    ∀ (l : List Char), ∀ piece ∈ splitOnCharList sep l, sep ∉ piece := by
  intro l
  induction l with
  | nil =>
    intro piece h
    simp [splitOnCharList] at h
    subst h
    simp
  | cons c cs ih =>
    intro piece h
    unfold splitOnCharList at h
    by_cases hc : c = sep
    · rw [if_pos hc] at h
      rcases List.mem_cons.mp h with h' | h'
      · subst h'; simp
      · exact ih piece h'
    · rw [if_neg hc] at h
      cases hsp : splitOnCharList sep cs with
      | nil => exact absurd hsp (splitOnCharList_ne_nil sep cs)
      | cons l0 ls =>
        rw [hsp] at h
        rcases List.mem_cons.mp h with h' | h'
        · subst h'
          intro hmem
          rcases List.mem_cons.mp hmem with h'' | h''
          · exact hc h''.symm
          · exact ih l0 (by rw [hsp]; exact List.mem_cons_self _ _) h''
        · exact ih piece (by rw [hsp]; exact List.mem_cons_of_mem _ h')

theorem joinWithChar_cons_cons (sep : Char) (l l2 : List Char) (ls : List (List Char)) :
    joinWithChar sep (l :: l2 :: ls) = l ++ sep :: joinWithChar sep (l2 :: ls) := rfl

theorem joinWithChar_splitOnCharList (sep : Char) :
    ∀ l : List Char, joinWithChar sep (splitOnCharList sep l) = l := by
  intro l
  induction l with
  | nil => rfl
  | cons c cs ih =>
    unfold splitOnCharList
    by_cases hc : c = sep
    · rw [if_pos hc]
      cases hsp : splitOnCharList sep cs with
      | nil => exact absurd hsp (splitOnCharList_ne_nil sep cs)
      | cons l0 ls =>
        rw [hsp] at ih
        rw [joinWithChar_cons_cons]
        simp [ih, hc]
    · rw [if_neg hc]
      cases hsp : splitOnCharList sep cs with
      | nil => exact absurd hsp (splitOnCharList_ne_nil sep cs)
      | cons l0 ls =>
        rw [hsp] at ih
        cases ls with
        | nil =>
          simp only [joinWithChar] at ih ⊢
          rw [ih]
        | cons l1 ls1 =>
          rw [joinWithChar_cons_cons, List.cons_append, ← joinWithChar_cons_cons, ih]

theorem splitOnCharList_no_sep_id (sep : Char) :
    ∀ (l : List Char), sep ∉ l → splitOnCharList sep l = [l] := by
  intro l
  induction l with
  | nil => intro _; rfl
  | cons c l' ih =>
    intro h
    have hc : ¬ (c = sep) := fun e => h (by simp [e])
    have h' : sep ∉ l' := fun hm => h (List.mem_cons_of_mem _ hm)
    simp only [splitOnCharList, if_neg hc, ih h']

theorem splitOnCharList_glue (sep : Char) :
    ∀ (l rest : List Char), sep ∉ l →
    splitOnCharList sep (l ++ sep :: rest) = l :: splitOnCharList sep rest := by
  intro l
  induction l with
  | nil =>
    intro rest _
    simp [splitOnCharList]
  | cons c l' ih =>
    intro rest h
    have hc : ¬ (c = sep) := fun e => h (by simp [e])
    have h' : sep ∉ l' := fun hm => h (List.mem_cons_of_mem _ hm)
    simp only [List.cons_append, splitOnCharList, List.append_eq, if_neg hc, ih rest h']

theorem splitOnCharList_joinWithChar (sep : Char) :
    ∀ (ll : List (List Char)), ll ≠ [] → (∀ p ∈ ll, sep ∉ p) →
    splitOnCharList sep (joinWithChar sep ll) = ll := by
  intro ll
  induction ll with
  | nil => intro h _; exact absurd rfl h
  | cons l ls ih =>
    intro _ hall
    cases ls with
    | nil => exact splitOnCharList_no_sep_id sep l (hall l (by simp))
    | cons l1 ls1 =>
      rw [joinWithChar_cons_cons, splitOnCharList_glue sep l _ (hall l (by simp)),
        ih (by simp) (fun p hp => hall p (List.mem_cons_of_mem _ hp))]

theorem joinWithChar_glue (sep : Char) (x y : List Char) (ls : List (List Char)) :
    joinWithChar sep ((x ++ sep :: y) :: ls) = x ++ sep :: joinWithChar sep (y :: ls) := by
  cases ls with
  | nil => rfl
  | cons l1 ls1 =>
    rw [joinWithChar_cons_cons, joinWithChar_cons_cons]
    simp [List.append_assoc]

theorem data_append3 (a b : String) : (a ++ "/" ++ b).data = a.data ++ '/' :: b.data := by
  rw [String.data_append, String.data_append]
  have h : ("/" : String).data = ['/'] := rfl
  rw [h]
  simp

theorem joinFrom_data (rest : List String) :
    ∀ (a : String), a ≠ "" →
    (joinFrom a rest).data = joinWithChar '/' (a.data :: rest.map String.data) := by
  induction rest with
  | nil => intro a _; rfl
  | cons b r ih =>
    intro a ha
    rw [joinFrom_cons]
    have hab : joinPath a b = a ++ "/" ++ b := by rw [joinPath, if_neg ha]
    have hne : (a ++ "/" ++ b) ≠ "" := by
      intro h
      have : (a ++ "/" ++ b).data = ([] : List Char) := by rw [h]
      rw [data_append3] at this
      simp at this
    rw [hab, ih _ hne, data_append3, List.map_cons]
    exact joinWithChar_glue '/' a.data b.data (List.map String.data r)

theorem joinSegs_cons (a : String) (r : List String) :
    joinSegs (a :: r) = joinFrom a r := by
  unfold joinSegs
  rw [joinFrom_cons]
  rfl

theorem joinSegs_data {segs : List String} (h : segs ≠ []) (hne : ∀ s ∈ segs, s ≠ "") :
    (joinSegs segs).data = joinWithChar '/' (segs.map String.data) := by
  cases segs with
  | nil => exact absurd rfl h
  | cons a r =>
    rw [joinSegs_cons, joinFrom_data r a (hne a (by simp)), List.map_cons]

theorem splitSlash_ne_nil (p : String) : splitSlash p ≠ [] := by
  unfold splitSlash splitChar
  intro h
  rw [List.map_eq_nil_iff] at h
  exact splitOnCharList_ne_nil '/' p.data h

theorem splitSlash_empty : splitSlash "" = [""] := by decide

theorem splitSlash_mem_no_slash (p s : String) (hs : s ∈ splitSlash p) : '/' ∉ s.data := by
  unfold splitSlash splitChar at hs
  rcases List.mem_map.mp hs with ⟨piece, hp, he⟩
  have : s.data = piece := by rw [← he]
  rw [this]
  exact mem_splitOnCharList_no_sep '/' p.data piece hp

theorem splitSlash_joinSegs {segs : List String} (h : segs ≠ [])
    (hne : ∀ s ∈ segs, s ≠ "") (hsl : ∀ s ∈ segs, '/' ∉ s.data) :
    splitSlash (joinSegs segs) = segs := by
  unfold splitSlash splitChar
  rw [joinSegs_data h hne]
  rw [splitOnCharList_joinWithChar '/' (segs.map String.data)
    (by simpa using h)
    (by intro piece hp
        rcases List.mem_map.mp hp with ⟨s, hsm, he⟩
        rw [← he]
        exact hsl s hsm)]
  rw [List.map_map]
  have : (String.mk ∘ String.data) = id := by
    funext s
    cases s
    rfl
  rw [this, List.map_id]

theorem joinSegs_splitSlash (p : String) (h : ∀ s ∈ splitSlash p, s ≠ "") :
    joinSegs (splitSlash p) = p := by
  apply String.ext
  rw [joinSegs_data (splitSlash_ne_nil p) h]
  unfold splitSlash splitChar
  rw [List.map_map]
  have hmd : (String.data ∘ String.mk) = id := by
    funext l
    rfl
  rw [hmd, List.map_id]
  exact joinWithChar_splitOnCharList '/' p.data

/-! ## C1: selectability and path uniqueness -/

/-- C1 counterexample: on the path list `["/"]` the non-empty path `"/"` has
no corresponding node at all — splitting `"/"` yields two empty segments, and
the two synthesized nodes both carry the full path `""`, so no node's path is
`"/"`. The claim, instantiated at `P = ["/"]`, is false. -/
theorem buildTree_selectable_unique_refuted :
    ¬ ((∀ segs n, subtreeAt (buildTree ["/"]) segs = some n →
          (n.isSelectable = true ↔ n.path ∈ ["/"])) ∧
       (∀ p ∈ ["/"], ∃! segs : List String,
          ∃ n, subtreeAt (buildTree ["/"]) segs = some n ∧ n.path = p)) := by
  rintro ⟨-, h2⟩
  obtain ⟨segs, ⟨n, hsub, hpath⟩, -⟩ := h2 "/" (by simp)
  have hinfo : nodeInfoAt (buildTree ["/"]) segs = some (n.name, n.path, n.isSelectable) := by
    unfold nodeInfoAt
    rw [hsub]
    rfl
  rw [buildTree_info] at hinfo
  unfold buildTreeSpec specOver at hinfo
  by_cases h0 : segs = []
  · rw [if_pos h0] at hinfo
    simp only [Option.some.injEq, Prod.mk.injEq] at hinfo
    rw [hpath] at hinfo
    exact absurd hinfo.2.1 (by decide)
  · rw [if_neg h0] at hinfo
    by_cases hex : ∃ q ∈ ["/"], q ≠ "" ∧ segs <+: splitSlash q
    · rw [if_pos hex] at hinfo
      obtain ⟨q, hq, -, hpre⟩ := hex
      simp only [List.mem_singleton] at hq
      subst hq
      have hsplit : splitSlash "/" = ["", ""] := by decide
      rw [hsplit] at hpre
      have hj : joinSegs segs = "" := by
        cases segs with
        | nil => exact absurd rfl h0
        | cons s r =>
          rw [List.cons_prefix_cons] at hpre
          obtain ⟨rfl, hr⟩ := hpre
          cases r with
          | nil => decide
          | cons s2 r2 =>
            rw [List.cons_prefix_cons] at hr
            obtain ⟨rfl, hr2⟩ := hr
            rw [List.prefix_nil] at hr2
            subst hr2
            decide
      simp only [Option.some.injEq, Prod.mk.injEq] at hinfo
      rw [hpath, hj] at hinfo
      exact absurd hinfo.2.1 (by decide)
    · rw [if_neg hex] at hinfo
      exact absurd hinfo (by simp)

/-- C1 (amended): for every path list `P` whose paths have no empty segments
(no empty path, no leading, trailing or doubled slash), every node of
`buildTree P` is selectable exactly when its full path is a verbatim member
of `P`, and every path in `P` corresponds to exactly one node position
(duplicates in `P` create no extra nodes). -/
theorem buildTree_selectable_unique (P : List String)
    (hwf : ∀ p ∈ P, "" ∉ splitSlash p) :
    (∀ segs n, subtreeAt (buildTree P) segs = some n →
       (n.isSelectable = true ↔ n.path ∈ P)) ∧
    (∀ p ∈ P, ∃! segs : List String,
       ∃ n, subtreeAt (buildTree P) segs = some n ∧ n.path = p) := by
  have hPne : "" ∉ P := by
    intro hmem
    exact hwf "" hmem (by rw [splitSlash_empty]; simp)
  constructor
  · intro segs n hsub
    have hinfo : nodeInfoAt (buildTree P) segs = some (n.name, n.path, n.isSelectable) := by
      unfold nodeInfoAt
      rw [hsub]
      rfl
    rw [buildTree_info] at hinfo
    unfold buildTreeSpec specOver at hinfo
    by_cases h0 : segs = []
    · rw [if_pos h0] at hinfo
      simp only [Option.some.injEq, Prod.mk.injEq] at hinfo
      rw [← hinfo.2.2, ← hinfo.2.1]
      simp [hPne]
    · rw [if_neg h0] at hinfo
      by_cases hex : ∃ q ∈ P, q ≠ "" ∧ segs <+: splitSlash q
      · rw [if_pos hex] at hinfo
        simp only [Option.some.injEq, Prod.mk.injEq] at hinfo
        rw [← hinfo.2.2, ← hinfo.2.1, contains_eq_decide_mem]
        simp
      · rw [if_neg hex] at hinfo
        exact absurd hinfo (by simp)
  · intro p hp
    have hpne : p ≠ "" := by
      intro e
      subst e
      exact hPne hp
    have hne : ∀ s ∈ splitSlash p, s ≠ "" := by
      intro s hs e
      subst e
      exact hwf p hp hs
    refine ⟨splitSlash p, ?_, ?_⟩
    · have hinfo := buildTree_info P (splitSlash p)
      unfold buildTreeSpec specOver at hinfo
      rw [if_neg (splitSlash_ne_nil p),
        if_pos ⟨p, hp, hpne, List.prefix_refl _⟩] at hinfo
      unfold nodeInfoAt at hinfo
      rcases Option.map_eq_some'.mp hinfo with ⟨n, hsubn, hfn⟩
      refine ⟨n, hsubn, ?_⟩
      have := congrArg (fun t : String × String × Bool => t.2.1) hfn
      simp only at this
      rw [this]
      exact joinSegs_splitSlash p hne
    · rintro segs' ⟨n', hsub', hpath'⟩
      have hinfo' : nodeInfoAt (buildTree P) segs' =
          some (n'.name, n'.path, n'.isSelectable) := by
        unfold nodeInfoAt
        rw [hsub']
        rfl
      rw [buildTree_info] at hinfo'
      unfold buildTreeSpec specOver at hinfo'
      by_cases h0 : segs' = []
      · rw [if_pos h0] at hinfo'
        simp only [Option.some.injEq, Prod.mk.injEq] at hinfo'
        rw [← hinfo'.2.1] at hpath'
        exact absurd hpath'.symm hpne
      · rw [if_neg h0] at hinfo'
        by_cases hex : ∃ q ∈ P, q ≠ "" ∧ segs' <+: splitSlash q
        · rw [if_pos hex] at hinfo'
          obtain ⟨q, hq, hqne, hqpre⟩ := hex
          simp only [Option.some.injEq, Prod.mk.injEq] at hinfo'
          have hjoin : joinSegs segs' = p := hinfo'.2.1.trans hpath'
          have hne' : ∀ s ∈ segs', s ≠ "" := by
            intro s hs e
            subst e
            exact hwf q hq (hqpre.subset hs)
          have hsl' : ∀ s ∈ segs', '/' ∉ s.data := fun s hs =>
            splitSlash_mem_no_slash q s (hqpre.subset hs)
          calc segs' = splitSlash (joinSegs segs') :=
                (splitSlash_joinSegs h0 hne' hsl').symm
            _ = splitSlash p := by rw [hjoin]
        · rw [if_neg hex] at hinfo'
          exact absurd hinfo' (by simp)

/-- Witness for C1 (amended) at a concrete well-formed path list. -/
theorem buildTree_selectable_unique_witness :
    (∀ p ∈ ["a", "a/b"], "" ∉ splitSlash p) ∧
    (∃! segs : List String,
       ∃ n, subtreeAt (buildTree ["a", "a/b"]) segs = some n ∧ n.path = "a/b") :=
  ⟨by decide,
   (buildTree_selectable_unique ["a", "a/b"] (by decide)).2 "a/b" (by simp)⟩

example : getExifDataE [] = .error () := by decide
example : getExifDataE [0x00] = .ok none := by decide
example : getExifDataE [0xFF] = .error () := by decide
example : getExifDataE [0x12, 0xD8, 0x00] = .ok none := by decide
example : getExifDataE [0xFF, 0xD8] = .ok none := by decide

/-! ## Lemmas about the field map operations -/

theorem lookupAssoc_eraseAssoc {α : Type} (m : List (String × α)) (k s : String) :
    lookupAssoc (eraseAssoc m k) s = if k = s then none else lookupAssoc m s := by
  induction m with
  | nil => by_cases h : k = s <;> simp [eraseAssoc, lookupAssoc, h]
  | cons hd tl ih =>
    obtain ⟨k', v'⟩ := hd
    by_cases hk : k' = k
    · subst hk
      by_cases hs : k' = s
      · subst hs
        simp [eraseAssoc, lookupAssoc, ih]
      · simp [eraseAssoc, lookupAssoc, hs, ih]
    · by_cases hs : k' = s
      · subst hs
        have hks : ¬ (k = k') := fun h => hk h.symm
        simp [eraseAssoc, lookupAssoc, hk, hks]
      · simp [eraseAssoc, lookupAssoc, hk, hs, ih]

@[simp] theorem exceptBind_ok {ε α β : Type} (a : α) (f : α → Except ε β) :
    (Except.ok a : Except ε α) >>= f = f a := rfl

@[simp] theorem exceptBind_error {ε α β : Type} (e : ε) (f : α → Except ε β) :
    (Except.error e : Except ε α) >>= f = Except.error e := rfl

@[simp] theorem exceptPure {ε α : Type} (a : α) :
    (pure a : Except ε α) = Except.ok a := rfl

/-! ## C2: failure behaviour of the extractor -/

/-- C2 counterexample: on the empty buffer, `getExifData` performs
`dataView.getUint8(0)`, which throws a `RangeError` that propagates to the
caller — it does not return "no metadata". -/
theorem getExifData_raises_on_empty : getExifDataE [] = .error () := by decide

/-- C2 (amended): whenever the initial marker reads themselves are in range —
the first byte exists and differs from 0xFF, or the first two bytes exist and
are not the JPEG marker 0xFF 0xD8 — `getExifData` returns "no metadata"
without raising. (On buffers where a read is out of range, e.g. the empty
buffer, a `RangeError` propagates to the caller instead.) -/
theorem getExifData_no_marker (buf : ByteBuf) (b0 : Nat)
    (h0 : getU8 buf 0 = .ok b0)
    (h : b0 ≠ 0xFF ∨ ∃ b1, getU8 buf 1 = .ok b1 ∧ b1 ≠ 0xD8) :
    getExifDataE buf = .ok none := by
  unfold getExifDataE
  rcases h with hb | ⟨b1, h1, hb1⟩
  · simp [h0, hb]
  · by_cases hb0 : b0 = 0xFF
    · subst hb0
      simp [h0, h1, hb1]
    · simp [h0, hb0]

/-- Witness for C2 (amended) on a one-byte buffer without the marker. -/
theorem getExifData_no_marker_witness :
    getU8 [0x00] 0 = .ok 0 ∧ getExifDataE [0x00] = .ok none :=
  ⟨by decide, getExifData_no_marker [0x00] 0 (by decide) (Or.inl (by decide))⟩

/-! ## C10: termination and bounded iteration of the extractor -/

theorem scanLoop_steps_le (dv : ByteBuf) : ∀ (fuel offset : Nat),
    2 * (scanLoop dv fuel offset).1 ≤ dv.length + 1 - offset := by
  intro fuel
  induction fuel with
  | zero => intro off; simp [scanLoop]
  | succ f ih =>
    intro off
    by_cases h : off < dv.length
    · rw [scanLoop, if_pos h]
      cases hs : scanStep dv off with
      | error e =>
        simp only
        omega
      | ok v =>
        cases v with
        | inl r =>
          simp only
          omega
        | inr len =>
          simp only
          have := ih (off + 2 + len)
          omega
    · rw [scanLoop, if_neg h]
      simp

theorem scanLoop_fuel_irrelevant (dv : ByteBuf) : ∀ (f1 f2 offset : Nat),
    dv.length + 1 - offset ≤ 2 * f1 → dv.length + 1 - offset ≤ 2 * f2 →
    scanLoop dv f1 offset = scanLoop dv f2 offset := by
  intro f1
  induction f1 with
  | zero =>
    intro f2 off h1 _
    have hoff : ¬ (off < dv.length) := by omega
    cases f2 with
    | zero => rfl
    | succ g => simp [scanLoop, hoff]
  | succ g1 ih =>
    intro f2 off h1 h2
    cases f2 with
    | zero =>
      have hoff : ¬ (off < dv.length) := by omega
      simp [scanLoop, hoff]
    | succ g2 =>
      by_cases hoff : off < dv.length
      · rw [scanLoop, if_pos hoff, scanLoop, if_pos hoff]
        cases hs : scanStep dv off with
        | error e => rfl
        | ok v =>
          cases v with
          | inl r => rfl
          | inr len =>
            have := ih g2 (off + 2 + len) (by omega) (by omega)
            simp only [this]
      · rw [scanLoop, if_neg hoff, scanLoop, if_neg hoff]

/-- C10: the segment scan of `getExifData` is a total, bounded computation:
its result does not depend on the iteration budget once the budget covers the
buffer (each iteration advances the offset by at least 2 bytes, so
`byteLength + 1` units always suffice), and the number of loop iterations is
bounded by half the remaining buffer length. Directory decodes (`readTags`)
are folds over the explicit entry list and are total by construction. -/
theorem getExifData_scan_terminates :
    (∀ (dv : ByteBuf) (f1 f2 offset : Nat),
        dv.length + 1 - offset ≤ 2 * f1 → dv.length + 1 - offset ≤ 2 * f2 →
        scanLoop dv f1 offset = scanLoop dv f2 offset) ∧
    (∀ (dv : ByteBuf) (offset : Nat),
        2 * (scanSegments dv offset).1 ≤ dv.length + 1 - offset) :=
  ⟨fun dv => scanLoop_fuel_irrelevant dv,
   fun dv off => scanLoop_steps_le dv (dv.length + 1) off⟩

/-- Witness for C10 at a concrete buffer and two concrete sufficient fuels. -/
theorem getExifData_scan_terminates_witness :
    ([0xFF, 0xD8] : ByteBuf).length + 1 - 0 ≤ 2 * 2 ∧
    scanLoop [0xFF, 0xD8] 2 0 = scanLoop [0xFF, 0xD8] 7 0 :=
  ⟨by decide, getExifData_scan_terminates.1 [0xFF, 0xD8] 2 7 0 (by decide) (by decide)⟩

/-! ## C3: GPS coordinate normalization invariant -/

/-- C3 counterexample: a JPEG whose metadata contains a GPS directory with
only `GPSLatitudeRef` (and no `GPSLatitude`) fails the four-field truthiness
test guarding the normalization block, so the hemisphere reference is never
deleted and appears verbatim in the returned field map. -/
theorem getExifData_gps_ref_in_output :
    getExifDataE
      [0xFF, 0xD8, 0xFF, 0xE1, 0x00, 0x30, 0x45, 0x78, 0x69, 0x66, 0x00, 0x00,
       0x4D, 0x4D, 0x00, 0x2A, 0x00, 0x00, 0x00, 0x08, 0x00, 0x01, 0x88, 0x25,
       0x00, 0x04, 0x00, 0x00, 0x00, 0x01, 0x00, 0x00, 0x00, 0x16, 0x00, 0x01,
       0x00, 0x01, 0x00, 0x02, 0x00, 0x00, 0x00, 0x02, 0x4E, 0x00, 0x00, 0x00] =
      .ok (some [("GPSLatitudeRef", ExifVal.str "N")]) := by
  decide

/-- C3 (amended): when the decoded map passes the four-field truthiness test
(`tags.GPSLatitude && tags.GPSLongitude && tags.GPSLatitudeRef &&
tags.GPSLongitudeRef`), the normalization step removes both hemisphere
references, and the coordinates are present — as signed decimal degrees —
exactly in the case where both coordinates decoded as 3-element numeric
arrays and both references as strings: in that case both coordinates are
present with the correctly signed converted values (third conjunct), and in
every other case both coordinate fields are absent (fourth conjunct). When
the truthiness test fails, the map, hemisphere references included, passes
through unchanged (first conjunct). -/
theorem normalizeGps_cond_spec (m : FieldMap) :
    ((truthyAt m "GPSLatitude" && truthyAt m "GPSLongitude" &&
      truthyAt m "GPSLatitudeRef" && truthyAt m "GPSLongitudeRef") = false →
        normalizeGps m = m) ∧
    ((truthyAt m "GPSLatitude" && truthyAt m "GPSLongitude" &&
      truthyAt m "GPSLatitudeRef" && truthyAt m "GPSLongitudeRef") = true →
        lookupAssoc (normalizeGps m) "GPSLatitudeRef" = none ∧
        lookupAssoc (normalizeGps m) "GPSLongitudeRef" = none ∧
        (∀ a b c d e f : ℚ, ∀ rs es : String,
            lookupAssoc m "GPSLatitude" = some (.arr [a, b, c]) →
            lookupAssoc m "GPSLongitude" = some (.arr [d, e, f]) →
            lookupAssoc m "GPSLatitudeRef" = some (.str rs) →
            lookupAssoc m "GPSLongitudeRef" = some (.str es) →
            lookupAssoc (normalizeGps m) "GPSLatitude" =
              some (.num ((if trimJs rs = "N" then 1 else -1) * (a + b / 60 + c / 3600))) ∧
            lookupAssoc (normalizeGps m) "GPSLongitude" =
              some (.num ((if trimJs es = "E" then 1 else -1) * (d + e / 60 + f / 3600)))) ∧
        ((¬ ∃ a b c d e f : ℚ, ∃ rs es : String,
            lookupAssoc m "GPSLatitude" = some (.arr [a, b, c]) ∧
            lookupAssoc m "GPSLongitude" = some (.arr [d, e, f]) ∧
            lookupAssoc m "GPSLatitudeRef" = some (.str rs) ∧
            lookupAssoc m "GPSLongitudeRef" = some (.str es)) →
          lookupAssoc (normalizeGps m) "GPSLatitude" = none ∧
          lookupAssoc (normalizeGps m) "GPSLongitude" = none)) := by
  constructor
  · intro hfalse
    unfold normalizeGps
    rw [if_neg (by simp [hfalse])]
  · intro hc
    refine ⟨?_, ?_, ?_, ?_⟩
    · unfold normalizeGps
      rw [if_pos hc, lookupAssoc_eraseAssoc, lookupAssoc_eraseAssoc]
      simp
    · unfold normalizeGps
      rw [if_pos hc, lookupAssoc_eraseAssoc]
      simp
    · intro a b c d e f rs es hlat hlon hlatr hlonr
      unfold normalizeGps
      rw [if_pos hc]
      simp only [hlat, hlon, hlatr, hlonr]
      constructor
      · rw [lookupAssoc_eraseAssoc, lookupAssoc_eraseAssoc,
          lookupAssoc_updateAssoc, lookupAssoc_updateAssoc]
        simp
      · rw [lookupAssoc_eraseAssoc, lookupAssoc_eraseAssoc, lookupAssoc_updateAssoc]
        simp
    · intro hnv
      unfold normalizeGps
      rw [if_pos hc]
      split
      next a b c d e f rs es hlat hlon hlatr hlonr =>
        exact absurd ⟨a, b, c, d, e, f, rs, es, hlat, hlon, hlatr, hlonr⟩ hnv
      next =>
        constructor
        · rw [lookupAssoc_eraseAssoc, lookupAssoc_eraseAssoc,
            lookupAssoc_eraseAssoc, lookupAssoc_eraseAssoc]
          simp
        · rw [lookupAssoc_eraseAssoc, lookupAssoc_eraseAssoc,
            lookupAssoc_eraseAssoc, lookupAssoc_eraseAssoc]
          simp

/-- Witness for C3 (amended): on a concrete map passing the truthiness test
with valid shapes, the references are gone and both coordinates are present
as the correctly signed decimal degrees; on a concrete map failing the test
(the empty map), normalization is the identity. -/
theorem normalizeGps_cond_spec_witness :
    (truthyAt gpsSampleMap "GPSLatitude" && truthyAt gpsSampleMap "GPSLongitude" &&
     truthyAt gpsSampleMap "GPSLatitudeRef" && truthyAt gpsSampleMap "GPSLongitudeRef") = true ∧
    lookupAssoc (normalizeGps gpsSampleMap) "GPSLatitudeRef" = none ∧
    lookupAssoc (normalizeGps gpsSampleMap) "GPSLongitudeRef" = none ∧
    lookupAssoc (normalizeGps gpsSampleMap) "GPSLatitude" =
      some (ExifVal.num ((if trimJs "N" = "N" then 1 else -1) * (40 + 0 / 60 + 0 / 3600))) ∧
    lookupAssoc (normalizeGps gpsSampleMap) "GPSLongitude" =
      some (ExifVal.num ((if trimJs "W" = "E" then 1 else -1) * (74 + 0 / 60 + 0 / 3600))) ∧
    normalizeGps [] = [] :=
  ⟨by decide,
   ((normalizeGps_cond_spec gpsSampleMap).2 (by decide)).1,
   ((normalizeGps_cond_spec gpsSampleMap).2 (by decide)).2.1,
   (((normalizeGps_cond_spec gpsSampleMap).2 (by decide)).2.2.1 40 0 0 74 0 0 "N" "W"
      (by decide) (by decide) (by decide) (by decide)).1,
   (((normalizeGps_cond_spec gpsSampleMap).2 (by decide)).2.2.1 40 0 0 74 0 0 "N" "W"
      (by decide) (by decide) (by decide) (by decide)).2,
   (normalizeGps_cond_spec []).1 (by decide)⟩

/-! ## C4: the raw-pointer fallthrough of the directory decoder -/

/-- C4 counterexample: a directory whose single entry has a known tag
(`ImageWidth`), format 1 (byte) and component count 1 is not ASCII, not
rational, and not a single-component short/long, yet the decoder stores
nothing for it (the claim predicts the raw 4-byte value 0xABCDEF12 stored
verbatim): the branch for single-component values of total size ≤ 4 leaves
`value` undefined for formats other than 3 and 4. -/
theorem readTags_skips_inline_unknown_format :
    readTags [0x00, 0x01, 0x01, 0x00, 0x00, 0x01, 0x00, 0x00, 0x00, 0x01,
              0xAB, 0xCD, 0xEF, 0x12] 0 0 exifTagName true = .ok [] := by
  decide

/-- C4 (amended): a directory entry with a known tag and known format that is
not ASCII (2), not rational (5), and not a single-component entry of total
byte size ≤ 4 stores the raw 4-byte value/offset field verbatim as the tag's
value. (A single-component entry of total size ≤ 4 whose format is not
2/3/4/5 is skipped instead.) -/
theorem processEntry_pointer_verbatim (file : ByteBuf) (tiffStart dirStart : Nat)
    (tags : Nat → Option String) (bigEnd : Bool) (result : FieldMap) (i : Nat)
    (tagId fmt comps ptr : Nat) (tagName : String)
    (h1 : getU16 file (dirStart + i * 12 + 2) (!bigEnd) = .ok tagId)
    (h2 : tags tagId = some tagName)
    (h3 : getU16 file (dirStart + i * 12 + 4) (!bigEnd) = .ok fmt)
    (h4 : getU32 file (dirStart + i * 12 + 6) (!bigEnd) = .ok comps)
    (h5 : getU32 file (dirStart + i * 12 + 10) (!bigEnd) = .ok ptr)
    (h6 : typeSizeTable fmt ≠ 0)
    (h7 : fmt ≠ 2) (h8 : fmt ≠ 5)
    (h9 : ¬ (comps = 1 ∧ comps * typeSizeTable fmt ≤ 4)) :
    processEntry file tiffStart dirStart tags bigEnd result i =
      .ok (updateAssoc result tagName (.num (ptr : ℚ))) := by
  have e3 : dirStart + i * 12 + 2 + 2 = dirStart + i * 12 + 4 := by omega
  have e4 : dirStart + i * 12 + 2 + 4 = dirStart + i * 12 + 6 := by omega
  have e5 : dirStart + i * 12 + 2 + 8 = dirStart + i * 12 + 10 := by omega
  unfold processEntry
  simp only [e3, e4, e5, h1, h2, h3, h4, h5, exceptBind_ok]
  rw [if_neg h6, if_neg h7, if_neg h8, if_neg h9]
  rfl

/-- Witness for C4 (amended): a two-component short entry (total size 4,
component count ≠ 1) stores the raw pointer value 5. -/
theorem processEntry_pointer_verbatim_witness :
    processEntry [0x00, 0x01, 0x01, 0x00, 0x00, 0x03, 0x00, 0x00, 0x00, 0x02,
                  0x00, 0x00, 0x00, 0x05] 0 0 exifTagName true [] 0 =
      .ok (updateAssoc [] "ImageWidth" (ExifVal.num ((5 : Nat) : ℚ))) :=
  processEntry_pointer_verbatim
    [0x00, 0x01, 0x01, 0x00, 0x00, 0x03, 0x00, 0x00, 0x00, 0x02,
     0x00, 0x00, 0x00, 0x05] 0 0 exifTagName true [] 0
    0x0100 3 2 5 "ImageWidth"
    (by decide) (by decide) (by decide) (by decide) (by decide)
    (by decide) (by decide) (by decide) (by decide)

/-! ## C5: the cache prevents redundant fetches -/

/-- C5: a call for a folder already cached (even as an empty list) issues no
fetch and leaves the cache unchanged; from an uncached state, two successive
calls for the same path issue exactly one fetch between them (the first), and
the second call leaves the freshly-populated cache unchanged. -/
theorem loadImagesForFolder_cached_once (fetchImages : String → Option (List String))
    (cache : ImageCache) (p : String) :
    (∀ l, lookupAssoc cache p = some l →
        loadImagesForFolder fetchImages cache p = (cache, 0)) ∧
    (lookupAssoc cache p = none →
        (loadImagesForFolder fetchImages cache p).2 = 1 ∧
        loadImagesForFolder fetchImages (loadImagesForFolder fetchImages cache p).1 p =
          ((loadImagesForFolder fetchImages cache p).1, 0)) := by
  constructor
  · intro l hl
    unfold loadImagesForFolder
    rw [hl]
  · intro hmiss
    have hname : ∀ v, loadImagesForFolder fetchImages (updateAssoc cache p v) p =
        (updateAssoc cache p v, 0) := by
      intro v
      have hlk : lookupAssoc (updateAssoc cache p v) p = some v := by
        rw [lookupAssoc_updateAssoc]
        simp
      unfold loadImagesForFolder
      rw [hlk]
    have hsome : ∀ paths, fetchImages p = some paths →
        loadImagesForFolder fetchImages cache p =
          (updateAssoc cache p (paths.map mkImage), 1) := by
      intro paths hf
      unfold loadImagesForFolder
      rw [hmiss, hf]
    have hnone : fetchImages p = none →
        loadImagesForFolder fetchImages cache p = (updateAssoc cache p [], 1) := by
      intro hf
      unfold loadImagesForFolder
      rw [hmiss, hf]
    cases hf : fetchImages p with
    | some paths =>
      rw [hsome paths hf]
      exact ⟨rfl, hname (paths.map mkImage)⟩
    | none =>
      rw [hnone hf]
      exact ⟨rfl, hname []⟩

/-- Witness for C5 from the empty cache with a succeeding fetch. -/
theorem loadImagesForFolder_cached_once_witness :
    lookupAssoc ([] : ImageCache) "a" = none ∧
    (loadImagesForFolder (fun _ => some ["a/x.JPG"]) [] "a").2 = 1 ∧
    loadImagesForFolder (fun _ => some ["a/x.JPG"])
        (loadImagesForFolder (fun _ => some ["a/x.JPG"]) [] "a").1 "a" =
      ((loadImagesForFolder (fun _ => some ["a/x.JPG"]) [] "a").1, 0) :=
  ⟨rfl, ((loadImagesForFolder_cached_once (fun _ => some ["a/x.JPG"]) [] "a").2 rfl).1,
   ((loadImagesForFolder_cached_once (fun _ => some ["a/x.JPG"]) [] "a").2 rfl).2⟩

/-! ## C6: failed fetches settle into a cached empty list -/

/-- C6: when the fetch for an uncached folder fails, the cache afterwards
holds an empty list for that folder (one fetch was issued); a second call
for the same path is a no-op issuing no fetch; after the explicit
`invalidateAll` of `handleRefreshFolders`, the same call fetches again. -/
theorem loadImagesForFolder_failure (fetchImages : String → Option (List String))
    (cache : ImageCache) (p : String)
    (hfail : fetchImages p = none) (hmiss : lookupAssoc cache p = none) :
    loadImagesForFolder fetchImages cache p = (updateAssoc cache p [], 1) ∧
    lookupAssoc (updateAssoc cache p []) p = some [] ∧
    loadImagesForFolder fetchImages (updateAssoc cache p []) p =
      (updateAssoc cache p [], 0) ∧
    (loadImagesForFolder fetchImages (invalidateAll (updateAssoc cache p [])) p).2 = 1 := by
  have hlk : lookupAssoc (updateAssoc cache p []) p = some [] := by
    rw [lookupAssoc_updateAssoc]
    simp
  refine ⟨?_, hlk, ?_, ?_⟩
  · unfold loadImagesForFolder
    rw [hmiss, hfail]
  · unfold loadImagesForFolder
    rw [hlk]
  · unfold invalidateAll loadImagesForFolder
    rw [show lookupAssoc ([] : ImageCache) p = none from rfl, hfail]

/-- Witness for C6 with a concretely failing fetch. -/
theorem loadImagesForFolder_failure_witness :
    (fun _ : String => (none : Option (List String))) "b" = none ∧
    loadImagesForFolder (fun _ => none) [] "b" = (updateAssoc [] "b" [], 1) ∧
    loadImagesForFolder (fun _ => none) (updateAssoc [] "b" []) "b" =
      (updateAssoc [] "b" [], 0) :=
  ⟨rfl, (loadImagesForFolder_failure (fun _ => none) [] "b" rfl rfl).1,
   (loadImagesForFolder_failure (fun _ => none) [] "b" rfl rfl).2.2.1⟩

/-! ## C8: the ASCII decode of the directory decoder -/

/-- C8 counterexample: an ASCII entry whose bytes are `" A"` decodes to
`"A"` — `str.trim()` removes the leading whitespace too, refuting the claim
that leading characters are preserved. -/
theorem readTags_ascii_trims_leading :
    readTags [0x00, 0x01, 0x01, 0x0E, 0x00, 0x02, 0x00, 0x00, 0x00, 0x03,
              0x20, 0x41, 0x00, 0x00] 0 0 exifTagName true =
      .ok [("ImageDescription", ExifVal.str "A")] := by
  decide

/-- C8 (amended): an ASCII entry (format 2) with component count `c` decodes
to the string of exactly `min(c − 1, 100)` bytes read from the value address,
trimmed of whitespace at both ends (leading whitespace is removed as well,
because the source calls `str.trim()`). -/
theorem processEntry_ascii (file : ByteBuf) (tiffStart dirStart : Nat)
    (tags : Nat → Option String) (bigEnd : Bool) (result : FieldMap) (i : Nat)
    (tagId comps ptr : Nat) (tagName : String) (cs : List Char)
    (h1 : getU16 file (dirStart + i * 12 + 2) (!bigEnd) = .ok tagId)
    (h2 : tags tagId = some tagName)
    (h3 : getU16 file (dirStart + i * 12 + 4) (!bigEnd) = .ok 2)
    (h4 : getU32 file (dirStart + i * 12 + 6) (!bigEnd) = .ok comps)
    (h5 : getU32 file (dirStart + i * 12 + 10) (!bigEnd) = .ok ptr)
    (h6 : readChars file
        (if comps * 1 > 4 then tiffStart + ptr else dirStart + i * 12 + 10)
        (min (comps - 1) 100) = .ok cs) :
    processEntry file tiffStart dirStart tags bigEnd result i =
      .ok (updateAssoc result tagName (.str (trimJs (String.mk cs)))) := by
  have e3 : dirStart + i * 12 + 2 + 2 = dirStart + i * 12 + 4 := by omega
  have e4 : dirStart + i * 12 + 2 + 4 = dirStart + i * 12 + 6 := by omega
  have e5 : dirStart + i * 12 + 2 + 8 = dirStart + i * 12 + 10 := by omega
  have ht : typeSizeTable 2 = 1 := rfl
  unfold processEntry
  simp only [e3, e4, e5, h1, h2, h3, h4, h5, ht, exceptBind_ok]
  simp only [show ¬ ((1 : Nat) = 0) from by omega, if_false, if_pos rfl, h6, exceptBind_ok]
  simp [h6]

/-- Witness for C8 (amended): an inline 3-component ASCII entry with bytes
`" A"` decodes (after trimming both ends) to `"A"`. -/
theorem processEntry_ascii_witness :
    processEntry [0x00, 0x01, 0x01, 0x0E, 0x00, 0x02, 0x00, 0x00, 0x00, 0x03,
                  0x20, 0x41, 0x00, 0x00] 0 0 exifTagName true [] 0 =
      .ok (updateAssoc [] "ImageDescription"
            (ExifVal.str (trimJs (String.mk [' ', 'A'])))) :=
  processEntry_ascii
    [0x00, 0x01, 0x01, 0x0E, 0x00, 0x02, 0x00, 0x00, 0x00, 0x03,
     0x20, 0x41, 0x00, 0x00] 0 0 exifTagName true [] 0
    0x010E 3 0x20410000 "ImageDescription" [' ', 'A']
    (by decide) (by decide) (by decide) (by decide) (by decide) (by decide)

end ImageGallery
